import Mathlib

/-
  Verification of the daily-research pipeline (daily_research.py).

  The parser `parse_topics`, the aggregator `collect_all`, the retry loop
  `run_with_retry` and the idempotency gate of `main` are embedded as
  executable Lean functions over lists of characters; Python regular
  expressions are translated into explicit character-level matchers with
  the same semantics on the inputs they are applied to.
-/

namespace DailyResearch

/-- Topic record produced by the parser: title, summary, source URL. -/
structure Topic where
  title : String
  summary : String
  source : String
deriving DecidableEq, Repr

/-- Configuration of one category: dict key, display name, query text. -/
structure CategoryConfig where
  key : String
  name : String
  query : String
deriving DecidableEq, Repr

/-- Result for one category: display name plus the parsed (or fallback) topics. -/
structure CategoryResult where
  name : String
  topics : List Topic
deriving DecidableEq, Repr

/-- Error raised by an external collaborator (agent process, git push, webhook). -/
structure Err where
  msg : String
deriving DecidableEq, Repr

/-- Boolean test that the second list starts with the first (Python startswith). -/
def startsWithL : List Char → List Char → Bool
  | [], _ => true
  | _ :: _, [] => false
  | p :: ps, c :: cs => if p = c then startsWithL ps cs else false

/-- Drops the first list from the front of the second, or fails. -/
def dropPrefixL : List Char → List Char → Option (List Char)
  | [], s => some s
  | _ :: _, [] => none
  | p :: ps, c :: cs => if p = c then dropPrefixL ps cs else none

/-- Python str.strip: removes whitespace from both ends. -/
def pyStrip (l : List Char) : List Char :=
  ((l.dropWhile Char.isWhitespace).reverse.dropWhile Char.isWhitespace).reverse

/-- Python str.split(sep) for a one-character separator: keeps empty pieces,
always returns at least one piece. -/
def splitOnChar (sep : Char) : List Char → List (List Char)
  | [] => [[]]
  | c :: cs =>
    match splitOnChar sep cs with
    | [] => [[]]
    | l :: ls => if c = sep then [] :: l :: ls else (c :: l) :: ls

/-- Joins lines with a newline, inverse of splitOnChar for the newline separator. -/
def joinLines : List (List Char) → List Char
  | [] => []
  | [l] => l
  | l :: ls => l ++ '\n' :: joinLines ls

/-- Joins summary fragments with a single space (Python " ".join). -/
def joinSpaces : List (List Char) → List Char
  | [] => []
  | [l] => l
  | l :: ls => l ++ ' ' :: joinSpaces ls

/-- Python "".replace("### ", ""): removes every occurrence of the four
characters hash hash hash space, scanning left to right. -/
def stripHashes : List Char → List Char
  | '#' :: '#' :: '#' :: ' ' :: rest => stripHashes rest
  | c :: rest => c :: stripHashes rest
  | [] => []

/-- Embedding of re.split with a multiline lookahead on a heading line: lines
are grouped into chunks, a new chunk starting at every line that begins with
hash hash hash space.  The leading chunk holds the lines before the first
heading (it may be empty). -/
def groupSections : List (List Char) → List (List (List Char))
  | [] => [[]]
  | l :: ls =>
    match groupSections ls with
    | [] => [[]]
    | g :: gs =>
      if startsWithL ("### ".toList) l then [] :: (l :: g) :: gs
      else (l :: g) :: gs

/-- Extracts the URL group of the labeled-source pattern from the text that
follows the colon: after skipping whitespace, the maximal non-whitespace token
must extend a scheme marker http:// or https:// by at least one character. -/
def urlToken (r : List Char) : Option (List Char) :=
  let tok := (r.dropWhile Char.isWhitespace).takeWhile (fun c => !c.isWhitespace)
  if startsWithL ("http://".toList) tok ∧ 7 < tok.length then some tok
  else if startsWithL ("https://".toList) tok ∧ 8 < tok.length then some tok
  else none

/-- Remainder of the line after one of the labels Source, ソース, 出典. -/
def labeledTokenRest (line : List Char) : Option (List Char) :=
  match dropPrefixL ("Source".toList) line with
  | some r => some r
  | none =>
    match dropPrefixL ("ソース".toList) line with
    | some r => some r
    | none => dropPrefixL ("出典".toList) line

/-- Embedding of re.match on the labeled-source pattern: a label, an ASCII or
full-width colon, optional whitespace, then an http(s) URL of at least one
character beyond the scheme; yields the URL group. -/
def labeledSource (line : List Char) : Option (List Char) :=
  match labeledTokenRest line with
  | none => none
  | some [] => none
  | some (c :: r2) =>
    if c = ':' ∨ c = '：' then urlToken r2 else none

/-- Scans for a bracket-close immediately followed by an http(s) link opener,
with a closing parenthesis somewhere after it. -/
def mdLinkScan : List Char → Bool
  | [] => false
  | c :: rest =>
    (if startsWithL ("](http://".toList) (c :: rest) then
      ((c :: rest).drop 9).any (fun x => x == ')')
     else if startsWithL ("](https://".toList) (c :: rest) then
      ((c :: rest).drop 10).any (fun x => x == ')')
     else false)
    || mdLinkScan rest

/-- After the optional leading dash: skip whitespace, require an opening
bracket, then scan for the rest of the markdown-link pattern. -/
def mdLinkAfterDash (r1 : List Char) : Bool :=
  match r1.dropWhile Char.isWhitespace with
  | [] => false
  | c :: rest => if c = '[' then mdLinkScan rest else false

/-- Embedding of re.match on the markdown-link pattern: an optional dash,
whitespace, an opening bracket, then anywhere later a closing bracket followed
by an http(s) link in parentheses. -/
def mdLink (line : List Char) : Bool :=
  match line with
  | [] => false
  | c :: rest => mdLinkAfterDash (if c = '-' then rest else c :: rest)

/-- Tries the parenthesized-URL group at a position just after an opening
parenthesis: the scheme marker, then a non-empty run of characters other than
the closing parenthesis, which must be present. -/
def parenUrlAt (r : List Char) : Option (List Char) :=
  if startsWithL ("http://".toList) r then
    let u := (r.drop 7).takeWhile (fun x => x != ')')
    if u ≠ [] ∧ (r.drop 7).drop u.length ≠ [] then some ("http://".toList ++ u)
    else none
  else if startsWithL ("https://".toList) r then
    let u := (r.drop 8).takeWhile (fun x => x != ')')
    if u ≠ [] ∧ (r.drop 8).drop u.length ≠ [] then some ("https://".toList ++ u)
    else none
  else none

/-- Embedding of re.search for the parenthesized URL: the leftmost opening
parenthesis at which the group matches wins. -/
def findParenUrl : List Char → Option (List Char)
  | [] => none
  | c :: rest =>
    if c = '(' then
      match parenUrlAt rest with
      | some u => some u
      | none => findParenUrl rest
    else findParenUrl rest

/-- Line loop of parse_topics over the lines after the heading: each line is
stripped; blank lines and the bare separator are skipped; a labeled-source
match sets the source; otherwise a markdown-link match sets the source from
the parenthesized URL when one is found; every other line is appended to the
summary fragments. -/
def scanLines : List (List Char) → List Char → List (List Char) → List Char × List (List Char)
  | [], src, acc => (src, acc)
  | l :: ls, src, acc =>
    if pyStrip l = [] ∨ pyStrip l = ("---".toList) then scanLines ls src acc
    else
      match labeledSource (pyStrip l) with
      | some url => scanLines ls url acc
      | none =>
        if mdLink (pyStrip l) then
          match findParenUrl (pyStrip l) with
          | some u => scanLines ls u acc
          | none => scanLines ls src acc
        else scanLines ls src (acc ++ [pyStrip l])

/-- Processing of one chunk of parse_topics.  The chunk is stripped; a chunk
not starting with three hashes is skipped (inner none).  Otherwise the chunk
is split into lines; the access to the first line is kept explicit, the outer
none marking an undefined access.  The title is the first line with every
heading marker removed, stripped; a chunk with an empty title is skipped. -/
def parseSectionO (secRaw : List Char) : Option (Option Topic) :=
  if startsWithL ("###".toList) (pyStrip secRaw) then
    match splitOnChar '\n' (pyStrip secRaw) with
    | [] => none
    | l0 :: rest =>
      if pyStrip (stripHashes l0) = [] then some none
      else
        some (some
          { title := String.mk (pyStrip (stripHashes l0))
            summary := String.mk (pyStrip (joinSpaces (scanLines rest [] []).2))
            source := String.mk (scanLines rest [] []).1 })
  else some none

/-- Folds the chunk results in order, keeping the emitted topics and
propagating an undefined access. -/
def sequenceSections : List (List Char) → Option (List Topic)
  | [] => some []
  | sec :: rest =>
    match parseSectionO sec with
    | none => none
    | some o =>
      match sequenceSections rest with
      | none => none
      | some ts =>
        some (match o with
          | none => ts
          | some t => t :: ts)

/-- Embedding of parse_topics: split into heading chunks, process each chunk,
collect the topics in chunk order.  The outer Option records whether every
first-line access inside was defined. -/
def parse_topics (markdown_text : String) : Option (List Topic) :=
  sequenceSections ((groupSections (splitOnChar '\n' markdown_text.toList)).map joinLines)

/-- Total version of parse_topics used by the aggregator. -/
def parse_topicsD (markdown_text : String) : List Topic :=
  (parse_topics markdown_text).getD []

/-- Title computed by the parser for a chunk: the chunk's first line after
stripping, with every heading marker occurrence removed, then stripped. -/
def titleOf (sec : List Char) : List Char :=
  pyStrip (stripHashes ((splitOnChar '\n' (pyStrip sec)).headD []))

/-- Lines of a block body that the parser treats as summary fragments when no
line matches a source pattern: each line stripped, blank lines and the bare
separator removed. -/
def bodyLines (ls : List (List Char)) : List (List Char) :=
  (ls.map pyStrip).filter (fun l => !(decide (l = [] ∨ l = ("---".toList))))

/-- Fallback topic substituted when a category's parse yields nothing: the
title is the category display name, the summary is the first 500 characters of
the raw text, and the source is empty. -/
def fallbackTopic (c : CategoryConfig) (raw : String) : Topic :=
  { title := c.name, summary := String.mk (raw.toList.take 500), source := "" }

/-- Topic list stored for a category by collect_all: the parsed topics, or the
single fallback topic when the parse yields nothing. -/
def fallbackTopics (c : CategoryConfig) (raw : String) : List Topic :=
  if parse_topicsD raw = [] then [fallbackTopic c raw]
  else parse_topicsD raw

/-- Embedding of collect_all.  The external agent is a function from the
category key to the raw text or an error (collect_category performs exactly
one agent invocation per call, so the second component of the result traces
the keys for which the agent was invoked, in order).  A parse that yields no
topics is replaced by the single fallback topic; an agent error is re-raised
immediately, abandoning the remaining categories. -/
def collect_all (agent : String → Except Err String) :
    List CategoryConfig → Except Err (List (String × CategoryResult)) × List String
  | [] => (Except.ok [], [])
  | c :: cs =>
    match agent c.key with
    | Except.error e => (Except.error e, [c.key])
    | Except.ok raw =>
      match collect_all agent cs with
      | (Except.ok rest, inv) =>
        (Except.ok ((c.key, { name := c.name, topics := fallbackTopics c raw }) :: rest),
          c.key :: inv)
      | (Except.error e, inv) => (Except.error e, c.key :: inv)

/-- Embedding of notify_teams: the outcome of the webhook post is caught; the
function always returns normally, yielding only the error that was logged. -/
def notify_teams (postResult : Except Err Unit) : Unit × Option Err :=
  ((), match postResult with
    | Except.error e => some e
    | Except.ok _ => none)

/-- Report type produced by a successful aggregation. -/
def Report := List (String × CategoryResult)

/-- Body of one attempt of run_with_retry: collection, then publication
(render and push), then notification.  An error in collection or publication
is the attempt's error; the notification outcome is passed through
notify_teams and so never fails the attempt.  The second component is the
error logged by notify_teams, when any. -/
def run_attempt (collectR : Except Err Report) (publishR : Except Err Unit)
    (notifyR : Except Err Unit) : Except Err Unit × Option Err :=
  match collectR with
  | Except.error e => (Except.error e, none)
  | Except.ok _ =>
    match publishR with
    | Except.error e => (Except.error e, none)
    | Except.ok _ => (Except.ok (), (notify_teams notifyR).2)

/-- Retry loop of run_with_retry from a given attempt number, with the number
of later attempts still allowed as fuel (fuel = retryMax - attempt).  The
outcome function gives the result of executing the attempt body on a given
attempt number.  Returns the final result and the list of sleep durations, in
order. -/
def retryAux (outcome : Nat → Except Err Unit) (interval : Nat) :
    Nat → Nat → Except Err Unit × List Nat
  | attempt, 0 =>
    (match outcome attempt with
     | Except.ok _ => Except.ok ()
     | Except.error e => Except.error e, [])
  | attempt, rem + 1 =>
    match outcome attempt with
    | Except.ok _ => (Except.ok (), [])
    | Except.error _ =>
      ((retryAux outcome interval (attempt + 1) rem).1,
        interval :: (retryAux outcome interval (attempt + 1) rem).2)

/-- Embedding of run_with_retry: attempts are numbered 1 .. retryMax; after a
failed attempt other than the last the loop sleeps for the fixed interval and
retries; the last attempt's error is re-raised.  With retryMax below 1 the
loop body never runs and the function returns normally. -/
def run_with_retry (outcome : Nat → Except Err Unit) (interval maxRetries : Nat) :
    Except Err Unit × List Nat :=
  if maxRetries < 1 then (Except.ok (), [])
  else retryAux outcome interval 1 (maxRetries - 1)

/-- On-disk state visible to the pipeline: the dates that have an output
artifact. -/
structure World where
  artifacts : List String
deriving DecidableEq, Repr

/-- Embedding of already_generated_today: the artifact for the date exists. -/
def already_generated_today (w : World) (date : String) : Bool :=
  w.artifacts.contains date

/-- Embedding of generate_report_html restricted to its observable effect:
the artifact for the date now exists. -/
def generate_report_html (w : World) (date : String) : World :=
  { artifacts := date :: w.artifacts }

/-- One attempt of the stateful pipeline: collect_all invokes the agent (the
agent and the push outcome may vary with the attempt number), a successful
collection writes the day's artifact before the push, and a push failure
fails the attempt.  Returns the new world, the agent invocations of this
attempt, and the attempt's result. -/
def pipeline_step (agent : Nat → String → Except Err String) (cfg : List CategoryConfig)
    (pushR : Nat → Except Err Unit) (today : String) (n : Nat) (w : World) :
    World × List String × Except Err Unit :=
  match collect_all (agent n) cfg with
  | (Except.ok _, inv) => (generate_report_html w today, inv, pushR n)
  | (Except.error e, inv) => (w, inv, Except.error e)

/-- Retry loop threading the world and accumulating agent invocations, with
the number of later attempts still allowed as fuel. -/
def retryPipelineAux (step : Nat → World → World × List String × Except Err Unit) :
    Nat → Nat → World → List String → World × List String × Except Err Unit
  | attempt, rem, w, inv =>
    match step attempt w, rem with
    | (w2, i, Except.ok _), _ => (w2, inv ++ i, Except.ok ())
    | (w2, i, Except.error e), 0 => (w2, inv ++ i, Except.error e)
    | (w2, i, Except.error _), rem' + 1 => retryPipelineAux step (attempt + 1) rem' w2 (inv ++ i)

/-- Embedding of main in normal mode (no test flags): the idempotency gate
first — when the day's artifact already exists the run is a successful no-op
with zero agent invocations — otherwise the retry loop over the pipeline. -/
def main_normal (step : Nat → World → World × List String × Except Err Unit)
    (maxRetries : Nat) (w : World) (today : String) :
    World × List String × Except Err Unit :=
  if already_generated_today w today then (w, [], Except.ok ())
  else if maxRetries < 1 then (w, [], Except.ok ())
  else retryPipelineAux step 1 (maxRetries - 1) w []

/-! Theorems. -/

theorem splitOnChar_ne_nil (sep : Char) (l : List Char) : splitOnChar sep l ≠ [] := by
  induction l with
  | nil => simp [splitOnChar]
  | cons c cs ih =>
    simp only [splitOnChar]
    split
    · simp
    · split <;> simp

theorem parseSectionO_isSome (sec : List Char) : (parseSectionO sec).isSome = true := by
  unfold parseSectionO
  split
  · split
    · rename_i h; exact absurd h (splitOnChar_ne_nil _ _)
    · split <;> rfl
  · rfl

theorem sequenceSections_isSome (secs : List (List Char)) :
    (sequenceSections secs).isSome = true := by
  induction secs with
  | nil => rfl
  | cons sec rest ih =>
    simp only [sequenceSections]
    cases hp : parseSectionO sec with
    | none =>
      have h := parseSectionO_isSome sec
      rw [hp] at h
      exact absurd h (by simp)
    | some o =>
      cases hs : sequenceSections rest with
      | none => rw [hs] at ih; exact absurd ih (by simp)
      | some ts => cases o <;> rfl

/-- C10: parse_topics is total — on every input string it terminates and
returns a (possibly empty) topic list; in particular every first-line access
performed on a retained section is defined, so the embedded Option is always
some. -/
theorem c10_parse_total (s : String) : (parse_topics s).isSome = true :=
  sequenceSections_isSome _

/-- C1 counterexample: in a block where a labeled-source line precedes a
markdown-link line, the code's final source is the markdown URL, not the
labeled URL the claim predicts — the later match does overwrite. -/
theorem c1_counterexample :
    parse_topics "### T\nSource: https://example.com/a\n[x](https://example.com/b)" =
      some [{ title := "T", summary := "", source := "https://example.com/b" }] ∧
    ("https://example.com/b" : String) ≠ "https://example.com/a" := by
  decide

theorem dropPrefixL_cons_shape {p : Char} {ps s r : List Char}
    (h : dropPrefixL (p :: ps) s = some r) : ∃ cs, s = p :: cs := by
  cases s with
  | nil => simp [dropPrefixL] at h
  | cons c cs =>
    by_cases hpc : p = c
    · exact ⟨cs, by rw [hpc]⟩
    · rw [dropPrefixL, if_neg hpc] at h
      exact absurd h (by simp)

theorem labeledTokenRest_shape {line r : List Char}
    (h : labeledTokenRest line = some r) :
    ∃ cs, line = 'S' :: cs ∨ line = 'ソ' :: cs ∨ line = '出' :: cs := by
  unfold labeledTokenRest at h
  cases h1 : dropPrefixL ("Source".toList) line with
  | some r1 =>
    obtain ⟨cs, hcs⟩ := dropPrefixL_cons_shape (p := 'S') h1
    exact ⟨cs, Or.inl hcs⟩
  | none =>
    rw [h1] at h
    cases h2 : dropPrefixL ("ソース".toList) line with
    | some r2 =>
      obtain ⟨cs, hcs⟩ := dropPrefixL_cons_shape (p := 'ソ') h2
      exact ⟨cs, Or.inr (Or.inl hcs)⟩
    | none =>
      rw [h2] at h
      obtain ⟨cs, hcs⟩ := dropPrefixL_cons_shape (p := '出') h
      exact ⟨cs, Or.inr (Or.inr hcs)⟩

theorem mdLink_cons_false {c : Char} {cs : List Char} (hd : ¬c = '-')
    (hw : c.isWhitespace = false) (hb : ¬c = '[') : mdLink (c :: cs) = false := by
  show mdLinkAfterDash (if c = '-' then cs else c :: cs) = false
  rw [if_neg hd]
  unfold mdLinkAfterDash
  rw [List.dropWhile_cons]
  simp [hw, hb]

theorem labeledSource_eq_none_of_mdLink {line : List Char} (h : mdLink line = true) :
    labeledSource line = none := by
  cases hl : labeledTokenRest line with
  | none => simp [labeledSource, hl]
  | some r =>
    exfalso
    obtain ⟨cs, hc | hc | hc⟩ := labeledTokenRest_shape hl <;>
      rw [hc, mdLink_cons_false (by decide) (by decide) (by decide)] at h <;>
      exact absurd h (by simp)

/-- C1 (amended): the source of a topic is set by the last source-setting line
of the block, whichever pattern it matches; in particular a markdown-link line
at the end of the block determines the final source, overwriting any earlier
labeled-source line. -/
theorem c1_amended (ls : List (List Char)) (src : List Char) (acc : List (List Char))
    (l u : List Char) (hmd : mdLink (pyStrip l) = true)
    (hurl : findParenUrl (pyStrip l) = some u) :
    (scanLines (ls ++ [l]) src acc).1 = u := by
  induction ls generalizing src acc with
  | nil =>
    have hne : ¬(pyStrip l = [] ∨ pyStrip l = ("---".toList)) := by
      rintro (hx | hx) <;> rw [hx] at hmd <;> exact absurd hmd (by decide)
    simp only [List.nil_append, scanLines]
    rw [if_neg hne, labeledSource_eq_none_of_mdLink hmd]
    dsimp only
    rw [if_pos hmd, hurl]
  | cons head tail ih =>
    simp only [List.cons_append, scanLines]
    split
    · exact ih _ _
    · split
      · exact ih _ _
      · split
        · split
          · exact ih _ _
          · exact ih _ _
        · exact ih _ _

theorem c1_witness :
    (scanLines ["Source: https://example.com/a".toList, "[x](https://example.com/b)".toList]
      [] []).1 = "https://example.com/b".toList :=
  c1_amended ["Source: https://example.com/a".toList] [] [] _ _ (by decide) (by decide)

/-- C2 counterexample: the input consisting of the single line hash hash hash
x contains no line beginning with the heading marker (hash hash hash space),
yet parse returns a topic rather than the empty sequence the claim predicts,
because the chunk filter only tests for three hashes on the stripped chunk. -/
theorem c2_counterexample :
    parse_topics "###x" = some [{ title := "###x", summary := "", source := "" }] ∧
    (splitOnChar '\n' ("###x".toList)).all
      (fun l => !(startsWithL ("### ".toList) l)) = true ∧
    parse_topics "###x" ≠ some [] := by
  decide

theorem joinLines_cons_cons (c : Char) (a : List Char) (as : List (List Char)) :
    joinLines ((c :: a) :: as) = c :: joinLines (a :: as) := by
  cases as <;> simp [joinLines]

theorem joinLines_splitOnChar (l : List Char) : joinLines (splitOnChar '\n' l) = l := by
  induction l with
  | nil => rfl
  | cons c cs ih =>
    cases h : splitOnChar '\n' cs with
    | nil => exact absurd h (splitOnChar_ne_nil _ _)
    | cons a as =>
      rw [h] at ih
      simp only [splitOnChar, h]
      by_cases hc : c = '\n'
      · subst hc
        simp [joinLines, ih]
      · rw [if_neg hc, joinLines_cons_cons, ih]

theorem groupSections_eq_single {ls : List (List Char)}
    (h : ∀ l ∈ ls, startsWithL ("### ".toList) l = false) :
    groupSections ls = [ls] := by
  induction ls with
  | nil => rfl
  | cons l ls ih =>
    have hl : startsWithL ['#', '#', '#', ' '] l = false := h l (List.mem_cons_self _ _)
    have ih' := ih (fun x hx => h x (List.mem_cons_of_mem _ hx))
    simp [groupSections, ih', hl]

/-- C2 (amended): on input with no heading-marker lines AND whose stripped
text does not begin with three hashes, parse returns the empty sequence; a
chunk is discarded exactly when its stripped text does not start with three
hashes (the space after the hashes is not required by the chunk filter). -/
theorem c2_amended (s : String)
    (h1 : (splitOnChar '\n' s.toList).all
      (fun l => !(startsWithL ("### ".toList) l)) = true)
    (h2 : startsWithL ("###".toList) (pyStrip s.toList) = false) :
    parse_topics s = some [] := by
  have h1' : ∀ l ∈ splitOnChar '\n' s.toList, startsWithL ("### ".toList) l = false := by
    intro l hl
    have h3 := List.all_eq_true.mp h1 l hl
    simpa using h3
  have h2' : startsWithL ['#', '#', '#'] (pyStrip s.data) = false := h2
  unfold parse_topics
  rw [groupSections_eq_single h1']
  simp only [List.map_cons, List.map_nil, joinLines_splitOnChar]
  simp [sequenceSections, parseSectionO, h2, h2']

theorem c2_witness : parse_topics "hello world\nsome text" = some [] :=
  c2_amended _ (by decide) (by decide)

/-- C3 counterexample: a heading containing a second occurrence of the
heading marker loses that occurrence, because the title computation removes
every occurrence, not just the prefix. -/
theorem c3_counterexample :
    parse_topics "### A ### B" = some [{ title := "A B", summary := "", source := "" }] ∧
    ("A B" : String) ≠ "A ### B" := by
  decide

/-- C3 (amended): the title of every emitted topic equals the block's heading
line with EVERY occurrence of the heading marker removed and surrounding
whitespace trimmed, and it is non-empty; a block whose title computed this way
is empty is dropped from the output. -/
theorem c3_amended (sec : List Char) :
    (∀ t : Topic, parseSectionO sec = some (some t) →
      t.title = String.mk (titleOf sec) ∧ titleOf sec ≠ []) ∧
    (startsWithL ("###".toList) (pyStrip sec) = true → titleOf sec = [] →
      parseSectionO sec = some none) := by
  by_cases hsw : startsWithL ("###".toList) (pyStrip sec) = true
  · cases hsp : splitOnChar '\n' (pyStrip sec) with
    | nil => exact absurd hsp (splitOnChar_ne_nil _ _)
    | cons l0 rest =>
      have htof : titleOf sec = pyStrip (stripHashes l0) := by
        unfold titleOf
        rw [hsp]
        rfl
      constructor
      · intro t ht
        unfold parseSectionO at ht
        rw [if_pos hsw, hsp] at ht
        dsimp only at ht
        by_cases h0 : pyStrip (stripHashes l0) = []
        · rw [if_pos h0] at ht
          exact absurd ht (by simp)
        · rw [if_neg h0] at ht
          simp only [Option.some.injEq] at ht
          subst ht
          rw [htof]
          exact ⟨rfl, h0⟩
      · intro _ htitle
        rw [htof] at htitle
        unfold parseSectionO
        rw [if_pos hsw, hsp]
        dsimp only
        rw [if_pos htitle]
  · constructor
    · intro t ht
      unfold parseSectionO at ht
      rw [if_neg hsw] at ht
      exact absurd ht (by simp)
    · intro h _
      exact absurd h hsw

theorem c3_witness : titleOf ("### A ### B".toList) ≠ [] :=
  ((c3_amended ("### A ### B".toList)).1
    { title := "A B", summary := "", source := "" } (by decide)).2

theorem scanLines_body {ls : List (List Char)}
    (h : ∀ l ∈ ls, labeledSource (pyStrip l) = none ∧ mdLink (pyStrip l) = false) :
    ∀ src acc, scanLines ls src acc = (src, acc ++ bodyLines ls) := by
  induction ls with
  | nil => intro src acc; simp [scanLines, bodyLines]
  | cons l ls ih =>
    intro src acc
    have hl := h l (List.mem_cons_self _ _)
    have ih' := ih (fun x hx => h x (List.mem_cons_of_mem _ hx))
    by_cases hskip : pyStrip l = [] ∨ pyStrip l = ("---".toList)
    · have hd : decide (pyStrip l = [] ∨ pyStrip l = ("---".toList)) = true :=
        decide_eq_true hskip
      simp only [scanLines]
      rw [if_pos hskip, ih']
      simp [bodyLines, List.filter_cons, hd]
      have hcond : ¬(¬pyStrip l = [] ∧ ¬pyStrip l = ['-', '-', '-']) := by
        intro hcon
        rcases hskip with hx | hx
        · exact hcon.1 hx
        · exact hcon.2 hx
      rw [if_neg hcond]
    · have hd : decide (pyStrip l = [] ∨ pyStrip l = ("---".toList)) = false :=
        decide_eq_false hskip
      simp only [scanLines]
      rw [if_neg hskip, hl.1]
      dsimp only
      simp only [hl.2, Bool.false_eq_true, if_false]
      rw [ih']
      simp [bodyLines, List.filter_cons, hd]
      have hcond : ¬pyStrip l = [] ∧ ¬pyStrip l = ['-', '-', '-'] := by
        constructor
        · intro hx
          exact hskip (Or.inl hx)
        · intro hx
          exact hskip (Or.inr hx)
      rw [if_pos hcond]

/-- C9: a block whose lines after the heading all fail both source patterns
yields a topic with empty source and with summary equal to the stripped
non-blank non-separator lines joined by single spaces and trimmed. -/
theorem c9_body_only (sec l0 : List Char) (rest : List (List Char))
    (hsw : startsWithL ("###".toList) (pyStrip sec) = true)
    (hsplit : splitOnChar '\n' (pyStrip sec) = l0 :: rest)
    (hbody : rest.all
      (fun l => (labeledSource (pyStrip l)).isNone && !(mdLink (pyStrip l))) = true)
    (htitle : pyStrip (stripHashes l0) ≠ []) :
    parseSectionO sec = some (some
      { title := String.mk (pyStrip (stripHashes l0)),
        summary := String.mk (pyStrip (joinSpaces (bodyLines rest))),
        source := "" }) := by
  have hb : ∀ l ∈ rest, labeledSource (pyStrip l) = none ∧ mdLink (pyStrip l) = false := by
    intro l hl
    have h2 := List.all_eq_true.mp hbody l hl
    simp only [Bool.and_eq_true, Bool.not_eq_true', Option.isNone_iff_eq_none] at h2
    exact h2
  unfold parseSectionO
  rw [if_pos hsw, hsplit]
  dsimp only
  rw [if_neg htitle]
  rw [scanLines_body hb]
  simp

theorem c9_witness :
    parseSectionO ("### T\nhello\nworld\n---\n\nmore".toList) = some (some
      { title := "T", summary := "hello world more", source := "" }) :=
  c9_body_only _ ("### T".toList)
    ["hello".toList, "world".toList, "---".toList, [], "more".toList]
    (by decide) (by decide) (by decide) (by decide)

/-- C4: whenever collect_all returns a report, every category whose parse was
empty appears in it with exactly the single fallback topic (title = display
name, summary = first 500 characters of the raw text, empty source), and every
category result in the report has a non-empty topic list. -/
theorem c4_fallback (agent : String → Except Err String) (cats : List CategoryConfig)
    (results : List (String × CategoryResult))
    (hok : (collect_all agent cats).1 = Except.ok results) :
    (∀ c ∈ cats, ∀ raw, agent c.key = Except.ok raw → parse_topicsD raw = [] →
      (c.key, ({ name := c.name, topics := [fallbackTopic c raw] } : CategoryResult)) ∈ results) ∧
    (∀ kr ∈ results, kr.2.topics ≠ []) := by
  induction cats generalizing results with
  | nil =>
    simp [collect_all] at hok
    subst hok
    constructor
    · intro c hc
      simp at hc
    · intro kr hkr
      simp at hkr
  | cons c cs ih =>
    cases hag : agent c.key with
    | error e =>
      rw [collect_all, hag] at hok
      exact absurd hok (by simp)
    | ok raw =>
      rw [collect_all, hag] at hok
      cases hrec : collect_all agent cs with
      | mk res inv =>
        rw [hrec] at hok
        cases res with
        | error e => exact absurd hok (by simp)
        | ok rest =>
          simp only [Except.ok.injEq] at hok
          have ihres := ih rest (by rw [hrec])
          constructor
          · intro c' hc' raw' hag' hparse
            rcases List.mem_cons.mp hc' with hceq | hmem
            · rw [hceq] at hag' ⊢
              rw [hag] at hag'
              have hraw : raw = raw' := by
                simpa using hag'
              subst hraw
              have hf : fallbackTopics c raw = [fallbackTopic c raw] := by
                unfold fallbackTopics
                rw [if_pos hparse]
              rw [← hok, hf]
              apply List.mem_cons_self
            · rw [← hok]
              exact List.mem_cons_of_mem _ (ihres.1 c' hmem raw' hag' hparse)
          · intro kr hkr
            rw [← hok] at hkr
            rcases List.mem_cons.mp hkr with hkeq | hmem
            · subst hkeq
              show fallbackTopics c raw ≠ []
              unfold fallbackTopics
              split
              · simp
              · rename_i hne
                exact hne
            · exact ihres.2 kr hmem

theorem c4_witness :
    (("k", ({ name := "N", topics := [{ title := "N", summary := "plain text", source := "" }] } : CategoryResult)) ∈
      [("k", ({ name := "N", topics := [{ title := "N", summary := "plain text", source := "" }] } : CategoryResult))]) :=
  (c4_fallback (fun _ => Except.ok "plain text") [{ key := "k", name := "N", query := "q" }]
      _ rfl).1
    { key := "k", name := "N", query := "q" } (by simp) "plain text" rfl (by rfl)

/-- C5: collect_all is fail-fast — when the categories before some failing
category all collect successfully and that category's agent call fails, the
whole aggregation returns that very error (no partial report) and the agent
was invoked exactly for the preceding categories and the failing one; the
later categories see zero invocations. -/
theorem c5_failfast (agent : String → Except Err String) (pre post : List CategoryConfig)
    (c : CategoryConfig) (e : Err)
    (hpre : ∀ p ∈ pre, ∃ r, agent p.key = Except.ok r)
    (hc : agent c.key = Except.error e) :
    collect_all agent (pre ++ c :: post) =
      (Except.error e, (pre.map fun x => x.key) ++ [c.key]) := by
  induction pre with
  | nil =>
    rw [List.nil_append, collect_all, hc]
    simp
  | cons p pre ih =>
    obtain ⟨r, hr⟩ := hpre p (List.mem_cons_self _ _)
    have ih' := ih (fun x hx => hpre x (List.mem_cons_of_mem _ hx))
    rw [List.cons_append, collect_all, hr, ih']
    simp

theorem c5_witness :
    collect_all
      (fun k => if k = "k1" then Except.ok "x" else Except.error { msg := "boom" })
      [{ key := "k1", name := "N1", query := "q1" },
        { key := "k2", name := "N2", query := "q2" },
        { key := "k3", name := "N3", query := "q3" }] =
      (Except.error { msg := "boom" }, ["k1", "k2"]) :=
  c5_failfast _ [{ key := "k1", name := "N1", query := "q1" }]
    [{ key := "k3", name := "N3", query := "q3" }]
    { key := "k2", name := "N2", query := "q2" } { msg := "boom" }
    (by intro p hp
        simp at hp
        subst hp
        exact ⟨"x", rfl⟩)
    rfl

theorem retryAux_error (outcome : Nat → Except Err Unit) (interval : Nat) :
    ∀ rem attempt e sleeps,
      retryAux outcome interval attempt rem = (Except.error e, sleeps) →
      outcome (attempt + rem) = Except.error e ∧ sleeps = List.replicate rem interval := by
  intro rem
  induction rem with
  | zero =>
    intro attempt e sleeps h
    simp only [retryAux] at h
    cases ho : outcome attempt with
    | ok v =>
      rw [ho] at h
      simp at h
    | error e2 =>
      rw [ho] at h
      simp only [Prod.mk.injEq, Except.error.injEq] at h
      obtain ⟨he, hs⟩ := h
      constructor
      · rw [Nat.add_zero, ho, he]
      · rw [← hs]
        simp
  | succ rem ih =>
    intro attempt e sleeps h
    simp only [retryAux] at h
    cases ho : outcome attempt with
    | ok v =>
      rw [ho] at h
      simp at h
    | error e2 =>
      rw [ho] at h
      dsimp only at h
      cases hr : retryAux outcome interval (attempt + 1) rem with
      | mk r s =>
        rw [hr] at h
        simp only [Prod.mk.injEq] at h
        obtain ⟨h1, h2⟩ := h
        have hrec := ih (attempt + 1) e s (by rw [hr, h1])
        constructor
        · have harith : attempt + 1 + rem = attempt + (rem + 1) := by omega
          rw [← harith]
          exact hrec.1
        · rw [← h2, hrec.2]
          rfl

/-- C6: with three attempts allowed, two failures followed by a success yield
exactly two sleeps of the fixed interval and a successful result; three
failures yield the third attempt's error and still exactly two sleeps (none
after the last failure); and in general an error escapes the loop only on the
last allowed attempt, with one fixed-interval sleep between consecutive
attempts and no backoff growth. -/
theorem c6_retry (outcome : Nat → Except Err Unit) (interval : Nat) (e1 e2 e3 : Err) :
    (outcome 1 = Except.error e1 → outcome 2 = Except.error e2 → outcome 3 = Except.ok () →
      run_with_retry outcome interval 3 = (Except.ok (), [interval, interval])) ∧
    (outcome 1 = Except.error e1 → outcome 2 = Except.error e2 → outcome 3 = Except.error e3 →
      run_with_retry outcome interval 3 = (Except.error e3, [interval, interval])) ∧
    (∀ maxRetries e sleeps,
      run_with_retry outcome interval maxRetries = (Except.error e, sleeps) →
      1 ≤ maxRetries ∧ outcome maxRetries = Except.error e ∧
        sleeps = List.replicate (maxRetries - 1) interval) := by
  refine ⟨?_, ?_, ?_⟩
  · intro h1 h2 h3
    have s1 : retryAux outcome interval 1 2 = (Except.ok (), [interval, interval]) := by
      simp only [retryAux]
      rw [h1, h2, h3]
    simpa [run_with_retry] using s1
  · intro h1 h2 h3
    have s1 : retryAux outcome interval 1 2 = (Except.error e3, [interval, interval]) := by
      simp only [retryAux]
      rw [h1, h2, h3]
    simpa [run_with_retry] using s1
  · intro maxR e sleeps h
    unfold run_with_retry at h
    by_cases hm : maxR < 1
    · rw [if_pos hm] at h
      exact absurd h (by simp)
    · rw [if_neg hm] at h
      have hrec := retryAux_error outcome interval (maxR - 1) 1 e sleeps h
      have harith : 1 + (maxR - 1) = maxR := by omega
      rw [harith] at hrec
      exact ⟨by omega, hrec.1, hrec.2⟩

theorem c6_witness :
    run_with_retry (fun n => if n = 3 then Except.ok () else Except.error { msg := "f" }) 7 3 =
      (Except.ok (), [7, 7]) ∧
    run_with_retry (fun _ => Except.error { msg := "g" }) 7 3 =
      (Except.error { msg := "g" }, [7, 7]) ∧
    (1 ≤ 3 ∧ (fun _ => (Except.error { msg := "g" } : Except Err Unit)) 3 =
        Except.error { msg := "g" } ∧
      ([7, 7] : List Nat) = List.replicate (3 - 1) 7) :=
  ⟨(c6_retry _ 7 { msg := "f" } { msg := "f" } { msg := "f" }).1 rfl rfl rfl,
   (c6_retry _ 7 { msg := "g" } { msg := "g" } { msg := "g" }).2.1 rfl rfl rfl,
   (c6_retry (fun _ => Except.error { msg := "g" }) 7 { msg := "g" } { msg := "g" }
     { msg := "g" }).2.2 3 { msg := "g" } [7, 7] rfl⟩

theorem retryAux_const_ok (interval : Nat) :
    ∀ rem attempt, retryAux (fun _ => (Except.ok () : Except Err Unit)) interval attempt rem =
      (Except.ok (), []) := by
  intro rem
  cases rem <;> intro attempt <;> simp [retryAux]

/-- C7: when collection and publication both succeed, a failing notification
is caught — the attempt reports success with the error merely logged — and
the retry loop over such attempts terminates successfully with zero sleeps,
so the notification failure triggers no retry. -/
theorem c7_notify (rep : Report) (e : Err) (interval maxRetries : Nat) :
    run_attempt (Except.ok rep) (Except.ok ()) (Except.error e) = (Except.ok (), some e) ∧
    run_with_retry (fun _ => (run_attempt (Except.ok rep) (Except.ok ()) (Except.error e)).1)
      interval maxRetries = (Except.ok (), []) := by
  constructor
  · rfl
  · show run_with_retry (fun _ => Except.ok ()) interval maxRetries = (Except.ok (), [])
    unfold run_with_retry
    split
    · rfl
    · exact retryAux_const_ok interval _ _

theorem contains_self_cons (d : String) (l : List String) : (d :: l).contains d = true := by
  simp [List.contains_cons]

theorem retryPipeline_ok_artifact (agent : Nat → String → Except Err String)
    (cfg : List CategoryConfig) (pushR : Nat → Except Err Unit) (today : String) :
    ∀ rem attempt w inv w2 inv2,
      retryPipelineAux (pipeline_step agent cfg pushR today) attempt rem w inv =
        (w2, inv2, Except.ok ()) →
      already_generated_today w2 today = true := by
  intro rem
  induction rem with
  | zero =>
    intro attempt w inv w2 inv2 h
    unfold retryPipelineAux at h
    cases hs : pipeline_step agent cfg pushR today attempt w with
    | mk wa rest =>
      cases rest with
      | mk ia ra =>
        rw [hs] at h
        cases ra with
        | ok v =>
          simp only [Prod.mk.injEq] at h
          obtain ⟨hw, _, _⟩ := h
          subst hw
          unfold pipeline_step at hs
          cases hc : collect_all (agent attempt) cfg with
          | mk cres cinv =>
            rw [hc] at hs
            cases cres with
            | ok rep =>
              simp only [Prod.mk.injEq] at hs
              rw [← hs.1]
              exact contains_self_cons _ _
            | error e2 =>
              simp only [Prod.mk.injEq] at hs
              exact absurd hs.2.2 (by simp)
        | error e2 => simp at h
  | succ rem ih =>
    intro attempt w inv w2 inv2 h
    unfold retryPipelineAux at h
    cases hs : pipeline_step agent cfg pushR today attempt w with
    | mk wa rest =>
      cases rest with
      | mk ia ra =>
        rw [hs] at h
        cases ra with
        | ok v =>
          simp only [Prod.mk.injEq] at h
          obtain ⟨hw, _, _⟩ := h
          subst hw
          unfold pipeline_step at hs
          cases hc : collect_all (agent attempt) cfg with
          | mk cres cinv =>
            rw [hc] at hs
            cases cres with
            | ok rep =>
              simp only [Prod.mk.injEq] at hs
              rw [← hs.1]
              exact contains_self_cons _ _
            | error e2 =>
              simp only [Prod.mk.injEq] at hs
              exact absurd hs.2.2 (by simp)
        | error e2 =>
          exact ih (attempt + 1) wa (inv ++ ia) w2 inv2 h

/-- C8: the idempotency gate — when the day's artifact already exists the run
is an immediate successful no-op with zero agent invocations; consequently a
second call after any successful first call for the same date performs zero
agent invocations. -/
theorem c8_idempotency :
    (∀ (step : Nat → World → World × List String × Except Err Unit) (maxRetries : Nat)
      (w : World) (today : String), already_generated_today w today = true →
      main_normal step maxRetries w today = (w, [], Except.ok ())) ∧
    (∀ (agent : Nat → String → Except Err String) (cfg : List CategoryConfig)
      (pushR : Nat → Except Err Unit) (maxRetries : Nat) (w : World) (today : String)
      (w2 : World) (inv : List String),
      main_normal (pipeline_step agent cfg pushR today) maxRetries w today =
        (w2, inv, Except.ok ()) →
      main_normal (pipeline_step agent cfg pushR today) maxRetries w2 today =
        (w2, [], Except.ok ())) := by
  have skip : ∀ (step : Nat → World → World × List String × Except Err Unit) (maxRetries : Nat)
      (w : World) (today : String), already_generated_today w today = true →
      main_normal step maxRetries w today = (w, [], Except.ok ()) := by
    intro step maxR w today h
    unfold main_normal
    rw [if_pos h]
  refine ⟨skip, ?_⟩
  intro agent cfg pushR maxR w today w2 inv h
  by_cases hg : already_generated_today w today = true
  · rw [skip _ _ _ _ hg] at h
    simp only [Prod.mk.injEq] at h
    obtain ⟨hw, _, _⟩ := h
    subst hw
    exact skip _ _ _ _ hg
  · unfold main_normal at h
    rw [if_neg hg] at h
    by_cases hm : maxR < 1
    · rw [if_pos hm] at h
      simp only [Prod.mk.injEq] at h
      obtain ⟨hw, _, _⟩ := h
      subst hw
      unfold main_normal
      by_cases hg2 : already_generated_today w today = true
      · rw [if_pos hg2]
      · rw [if_neg hg2, if_pos hm]
    · rw [if_neg hm] at h
      have hart := retryPipeline_ok_artifact agent cfg pushR today (maxR - 1) 1 w [] w2 inv h
      exact skip _ _ _ _ hart

theorem c8_witness :
    main_normal (fun _ w => (w, [], Except.ok ())) 3
      { artifacts := ["2026-10-12"] } "2026-10-12" =
      ({ artifacts := ["2026-10-12"] }, [], Except.ok ()) ∧
    main_normal
      (pipeline_step (fun _ _ => Except.ok "x") [{ key := "k", name := "N", query := "q" }]
        (fun _ => Except.ok ()) "2026-10-12")
      3 { artifacts := ["2026-10-12"] } "2026-10-12" =
      ({ artifacts := ["2026-10-12"] }, [], Except.ok ()) := by
  constructor
  · exact c8_idempotency.1 _ 3 _ _ (by decide)
  · exact c8_idempotency.2 (fun _ _ => Except.ok "x") [{ key := "k", name := "N", query := "q" }]
      (fun _ => Except.ok ()) 3 { artifacts := [] } "2026-10-12"
      { artifacts := ["2026-10-12"] } ["k"] (by rfl)

end DailyResearch
